import Mathlib

/-!
Verification of the epoch-level training loop of `mlxim.trainer.trainer.Trainer`
(file `src/mlxim/trainer/trainer.py`).

The trainer is shallowly embedded over the rationals: every Python float that
the loop reads or produces (loss values, throughput, the log-frequency
fraction, wall-clock durations) is modelled as a `ℚ`.  External collaborators
(the model, the loss function, the `Accuracy` accumulators, the
`ModelCheckpoint` policy, the data loaders) are abstract parameters of the
configuration, exactly as the trainer consumes them through their narrow
interfaces:

* the model is a pure function from inputs to logits (its parameter mutation
  by the optimizer is not observed by any property below);
* the loss function maps (logits, target, kwargs) to a list of per-example
  losses, and `mx.mean` of that list is the per-batch loss;
* an `Accuracy` accumulator is its update history, a `List (L × T)`;
  `update` appends, `reset` empties, `compute` is an abstract function of the
  history;
* the checkpoint policy is an abstract state machine with a `step` transition
  and a `patience_over` flag;
* a data loader is, per epoch, a finite list of batches; each batch carries
  its input, target, leading dimension `x.shape[0]`, and the wall-clock
  duration `toc - tic` that `time.perf_counter` measured around its step.

Python failure modes relevant to the code are made explicit: `Except PyError`
records the `ZeroDivisionError` raised by `%` and `/` on a zero right operand
and the `TypeError` raised by unpacking `**None` into a call.
-/

namespace MlxTrainer

/-- Python runtime errors that the trainer code can raise on the paths
modelled here: `ZeroDivisionError` from `batch_idx % self.log_every` with
`log_every = 0` or from `x.shape[0] / (toc - tic)` with a zero duration, and
`TypeError` from unpacking `**self.loss_fn_args` when `loss_fn_args` is
`None`. -/
inductive PyError where
  | zeroDivisionError
  | typeError
  deriving DecidableEq, Repr

instance {ε α : Type} [DecidableEq ε] [DecidableEq α] : DecidableEq (Except ε α) := fun a b =>
  match a, b with
  | .error e, .error e2 =>
    if h : e = e2 then isTrue (by rw [h]) else isFalse (by intro hc; cases hc; exact h rfl)
  | .error _, .ok _ => isFalse (by intro hc; cases hc)
  | .ok _, .error _ => isFalse (by intro hc; cases hc)
  | .ok v, .ok v2 =>
    if h : v = v2 then isTrue (by rw [h]) else isFalse (by intro hc; cases hc; exact h rfl)

/-- Arithmetic mean of a list of floats, as `np.mean` computes it on the
nonempty per-batch lists the trainer builds: sum divided by length. -/
def npMean (l : List ℚ) : ℚ := l.sum / l.length

/-- One `(x, target)` batch as the loop observes it, together with the
leading dimension `x.shape[0]` and the wall-clock duration `toc - tic`
measured around its step. -/
structure Batch (I T : Type) where
  x : I
  target : T
  size : ℕ
  elapsed : ℚ
  deriving DecidableEq

/-- The construction-time configuration of a `Trainer` (its `__init__`
arguments) together with the collaborator interfaces the loop consumes.
`trainData e` is the batch sequence the (restartable) train loader yields in
epoch `e`; `valData` is `none` when no validation loader is configured.
`accCompute` is the abstract `Accuracy.compute` applied to an update history.
`hasCheckpoint` is the truthiness of `self.model_checkpoint`; `policyInit`,
`policyStep` and `patienceOver` are the checkpoint policy's initial state,
its `step` method and its `patience_over` flag; `weights` is the snapshot
`get_weights(self.model)` passed to `step`.  `logEvery` is the already
computed `self.log_every = int(log_every * len(self.train_loader))`. -/
structure TrainerCfg (I T L P W : Type) where
  model : I → L
  loss_fn : L → T → List (String × ℚ) → List ℚ
  loss_fn_args : Option (List (String × ℚ))
  accCompute : List (L × T) → ℚ
  trainData : ℕ → List (Batch I T)
  valData : Option (ℕ → List (Batch I T))
  logEvery : ℕ
  maxEpochs : ℕ
  hasCheckpoint : Bool
  policyInit : P
  policyStep : P → ℕ → List (String × ℚ) → W → P
  patienceOver : P → Bool
  weights : W

variable {I T L P W : Type}

/-- Computation of `self.log_every = int(log_every * len(self.train_loader))`: Python's
`int()` truncates toward zero, which on the nonnegative fraction times the
batch count equals the floor. -/
def log_every_of (f : ℚ) (n : ℕ) : ℕ := (Int.floor (f * n)).toNat

/-- Model of `Trainer._train_step`: compute the logits by the model's forward pass,
return `mx.mean` of the per-example losses of
`self.loss_fn(logits, target, **self.loss_fn_args)`, and as its only side
effect append `(logits, target)`, the raw predictions and the targets, once
to the training accumulator's history (`self.train_acc.update`).  When
`loss_fn_args` is `None`, the `**` unpacking raises `TypeError` before any
loss value is produced. -/
def train_step (cfg : TrainerCfg I T L P W) (acc : List (L × T)) (x : I) (target : T) :
    Except PyError (ℚ × List (L × T)) :=
  let logits := cfg.model x
  match cfg.loss_fn_args with
  | none => .error .typeError
  | some args =>
    .ok (npMean (cfg.loss_fn logits target args), acc ++ [(logits, target)])

/-- Model of `Trainer._val_step`: identical to `_train_step` except that the update
goes to the validation accumulator (here: whichever history is passed in). -/
def val_step (cfg : TrainerCfg I T L P W) (acc : List (L × T)) (x : I) (target : T) :
    Except PyError (ℚ × List (L × T)) :=
  let logits := cfg.model x
  match cfg.loss_fn_args with
  | none => .error .typeError
  | some args =>
    .ok (npMean (cfg.loss_fn logits target args), acc ++ [(logits, target)])

/-- The per-batch throughput expression `x.shape[0] / (toc - tic)` of lines
117 and 150, with Python float-division semantics: a zero duration raises
`ZeroDivisionError`; otherwise the quotient is returned (an empty batch with
a positive duration yields `0.0`). -/
def throughputOf (size : ℕ) (elapsed : ℚ) : Except PyError ℚ :=
  if elapsed = 0 then .error .zeroDivisionError else .ok ((size : ℚ) / elapsed)

/-- The running per-epoch state of `train_epoch` / `val_epoch`: the local
lists `epoch_loss` and `throughput`, the accumulator history mutated through
the step function, and the number of progress lines printed so far. -/
structure EpochAcc (L T : Type) where
  losses : List ℚ
  thrpts : List ℚ
  acc : List (L × T)
  logCount : ℕ
  deriving DecidableEq

/-- What an epoch returns: the triple `(np.mean(epoch_loss), epoch_acc,
np.mean(throughput))`, together with the accumulator history after the
`reset()` that precedes the return, and the number of progress lines the
epoch printed. -/
structure EpochResult (L T : Type) where
  meanLoss : ℚ
  accVal : ℚ
  meanThr : ℚ
  accAfter : List (L × T)
  logCount : ℕ
  deriving DecidableEq

/-- The body of the `train_epoch` loop for one batch at index `batch_idx`:
run the step function (loss and accumulator update), append the loss and the
throughput `x.shape[0] / (toc - tic)`, then evaluate the logging trigger
`batch_idx % self.log_every == 0`, which raises `ZeroDivisionError` when
`self.log_every` is `0` and otherwise prints one progress line exactly when
the remainder is zero. -/
def processTrainBatch (cfg : TrainerCfg I T L P W) (idx : ℕ) (b : Batch I T)
    (s : EpochAcc L T) : Except PyError (EpochAcc L T) :=
  match train_step cfg s.acc b.x b.target with
  | .error e => .error e
  | .ok (loss, acc2) =>
    match throughputOf b.size b.elapsed with
    | .error e => .error e
    | .ok thr =>
      if cfg.logEvery = 0 then .error .zeroDivisionError
      else
        .ok { losses := s.losses ++ [loss], thrpts := s.thrpts ++ [thr], acc := acc2,
              logCount := if idx % cfg.logEvery = 0 then s.logCount + 1 else s.logCount }

/-- The `for batch_idx, batch in enumerate(self.train_loader)` loop of
`train_epoch`, processing the remaining batches starting at index `idx`. -/
def runTrainBatches (cfg : TrainerCfg I T L P W) :
    ℕ → List (Batch I T) → EpochAcc L T → Except PyError (EpochAcc L T)
  | _, [], s => .ok s
  | idx, b :: rest, s =>
    match processTrainBatch cfg idx b s with
    | .error e => .error e
    | .ok s2 => runTrainBatches cfg (idx + 1) rest s2

/-- Model of `Trainer.train_epoch`: iterate the training batches from index `0` with
fresh local lists, then read `epoch_acc = self.train_acc.compute()`, call
`self.train_acc.reset()`, and return
`(np.mean(epoch_loss), epoch_acc, np.mean(throughput))`. -/
def train_epoch (cfg : TrainerCfg I T L P W) (batches : List (Batch I T))
    (acc0 : List (L × T)) : Except PyError (EpochResult L T) :=
  match runTrainBatches cfg 0 batches { losses := [], thrpts := [], acc := acc0, logCount := 0 } with
  | .error e => .error e
  | .ok s =>
    .ok { meanLoss := npMean s.losses, accVal := cfg.accCompute s.acc,
          meanThr := npMean s.thrpts, accAfter := [], logCount := s.logCount }

/-- The body of the `val_epoch` loop for one batch: run `_val_step`, append
the loss and the throughput.  No periodic logging (the `tqdm` bar is not a
progress line of the loop). -/
def processValBatch (cfg : TrainerCfg I T L P W) (b : Batch I T) (s : EpochAcc L T) :
    Except PyError (EpochAcc L T) :=
  match val_step cfg s.acc b.x b.target with
  | .error e => .error e
  | .ok (loss, acc2) =>
    match throughputOf b.size b.elapsed with
    | .error e => .error e
    | .ok thr =>
      .ok { losses := s.losses ++ [loss], thrpts := s.thrpts ++ [thr], acc := acc2,
            logCount := s.logCount }

/-- The iteration of `val_epoch` over the validation batches. -/
def runValBatches (cfg : TrainerCfg I T L P W) :
    List (Batch I T) → EpochAcc L T → Except PyError (EpochAcc L T)
  | [], s => .ok s
  | b :: rest, s =>
    match processValBatch cfg b s with
    | .error e => .error e
    | .ok s2 => runValBatches cfg rest s2

/-- Model of `Trainer.val_epoch`: iterate the validation batches, then read
`epoch_acc = self.val_acc.compute()`, call `self.val_acc.reset()`, and
return `(np.mean(epoch_loss), epoch_acc, np.mean(throughput))`. -/
def val_epoch (cfg : TrainerCfg I T L P W) (batches : List (Batch I T))
    (acc0 : List (L × T)) : Except PyError (EpochResult L T) :=
  match runValBatches cfg batches { losses := [], thrpts := [], acc := acc0, logCount := 0 } with
  | .error e => .error e
  | .ok s =>
    .ok { meanLoss := npMean s.losses, accVal := cfg.accCompute s.acc,
          meanThr := npMean s.thrpts, accAfter := [], logCount := s.logCount }

/-- The per-batch loss value `mx.mean(self.loss_fn(self.model(x), target,
**args))` that both step functions produce for a batch. -/
def batchLoss (cfg : TrainerCfg I T L P W) (args : List (String × ℚ)) (b : Batch I T) : ℚ :=
  npMean (cfg.loss_fn (cfg.model b.x) b.target args)

/-- The per-batch throughput value `x.shape[0] / (toc - tic)` for a batch
with nonzero duration. -/
def batchThr (b : Batch I T) : ℚ := (b.size : ℚ) / b.elapsed

/-- The `(predictions, targets)` pairs an epoch over `batches` feeds to
`Accuracy.update`, in order: the raw logits of the forward pass paired with
the targets. -/
def updatesOf (cfg : TrainerCfg I T L P W) (batches : List (Batch I T)) : List (L × T) :=
  batches.map fun b => (cfg.model b.x, b.target)

/-- Projection of an epoch result onto its printed-progress-line count. -/
def resultLogCount (r : EpochResult L T) : ℕ := r.logCount

/-- Projection of an epoch result onto its (mean loss, mean throughput)
pair. -/
def meanPair (r : EpochResult L T) : ℚ × ℚ := (r.meanLoss, r.meanThr)

/-- Observable events of one run of `Trainer.train`, in execution order: the
start of a training phase and of a validation phase (each recording the
update history of its accumulator at that moment), and an invocation of
`self.model_checkpoint.step` with the metrics mapping it receives. -/
inductive Event (L T : Type) where
  | trainPhase (epoch : ℕ) (accAtStart : List (L × T))
  | valPhase (epoch : ℕ) (accAtStart : List (L × T))
  | checkpointStep (epoch : ℕ) (metrics : List (String × ℚ))
  deriving DecidableEq

/-- The epoch an event belongs to. -/
def Event.epochOf : Event L T → ℕ
  | .trainPhase e _ => e
  | .valPhase e _ => e
  | .checkpointStep e _ => e

/-- The mutable state the run threads across epochs: the two accumulator
histories (`self.train_acc`, `self.val_acc`, distinct `Accuracy` objects)
and the checkpoint policy's internal state. -/
structure RunState (L T P : Type) where
  trainAcc : List (L × T)
  valAcc : List (L × T)
  policy : P
  deriving DecidableEq

/-- How a run of `Trainer.train` ends: `completed` models the plain `None`
return after the epoch loop finishes; `processExit e` models the `quit()`
call at epoch `e` on early stop, which terminates the whole process;
`pyError` models an exception propagating out of the loop. -/
inductive RunOutcome where
  | completed
  | processExit (epoch : ℕ)
  | pyError (err : PyError)
  deriving DecidableEq, Repr

/-- The value the Python caller of `train()` receives: `some none` is the
plain `None` return, `some (some e)` an exception delivered to the caller,
and `none` means nothing is delivered at all because `quit()` terminated
the process. -/
def callerOutcome : RunOutcome → Option (Option PyError)
  | .completed => some none
  | .pyError e => some (some e)
  | .processExit _ => none

/-- The `if self.model_checkpoint:` block of `Trainer.train`: when a
checkpoint policy is configured, call `step(epoch, metrics, weights)` and
read its `patience_over` flag; otherwise do nothing and report no stop. -/
def checkpointPhase (cfg : TrainerCfg I T L P W) (e : ℕ) (metrics : List (String × ℚ))
    (st : RunState L T P) : List (Event L T) × RunState L T P × Bool :=
  match cfg.hasCheckpoint with
  | true =>
    ([Event.checkpointStep e metrics],
     { st with policy := cfg.policyStep st.policy e metrics cfg.weights },
     cfg.patienceOver (cfg.policyStep st.policy e metrics cfg.weights))
  | false => ([], st, false)

/-- The body of `Trainer.train` for one epoch `e`: run the training phase;
if a validation loader is configured run the validation phase and pass the
metrics `{"val_loss": …, "val_acc": …}` to the checkpoint policy, otherwise
pass `{"train_loss": …, "train_acc": …}`; return the events, the new state
and the early-stop flag, or the exception that aborted the epoch. -/
def runEpoch (cfg : TrainerCfg I T L P W) (e : ℕ) (st : RunState L T P) :
    List (Event L T) × Except PyError (RunState L T P × Bool) :=
  match train_epoch cfg (cfg.trainData e) st.trainAcc with
  | .error err => ([.trainPhase e st.trainAcc], .error err)
  | .ok tr =>
    match cfg.valData with
    | some vd =>
      match val_epoch cfg (vd e) st.valAcc with
      | .error err => ([.trainPhase e st.trainAcc, .valPhase e st.valAcc], .error err)
      | .ok vr =>
        match checkpointPhase cfg e [("val_loss", vr.meanLoss), ("val_acc", vr.accVal)]
            { trainAcc := tr.accAfter, valAcc := vr.accAfter, policy := st.policy } with
        | (cevs, st3, stop) =>
          (Event.trainPhase e st.trainAcc :: Event.valPhase e st.valAcc :: cevs,
           .ok (st3, stop))
    | none =>
      match checkpointPhase cfg e [("train_loss", tr.meanLoss), ("train_acc", tr.accVal)]
          { trainAcc := tr.accAfter, valAcc := st.valAcc, policy := st.policy } with
      | (cevs, st2, stop) => (Event.trainPhase e st.trainAcc :: cevs, .ok (st2, stop))

/-- The `for epoch in range(self.max_epochs)` loop of `Trainer.train`,
running epochs `e, e+1, …` while `fuel` epochs remain: an exception aborts
the run, a true `patience_over` flag right after `step` executes `quit()`
(`processExit`), otherwise the next epoch follows. -/
def runFrom (cfg : TrainerCfg I T L P W) :
    ℕ → ℕ → RunState L T P → List (Event L T) × RunOutcome × RunState L T P
  | _, 0, st => ([], .completed, st)
  | e, fuel + 1, st =>
    match runEpoch cfg e st with
    | (evs, .error err) => (evs, .pyError err, st)
    | (evs, .ok (st1, stop)) =>
      match stop with
      | true => (evs, .processExit e, st1)
      | false =>
        match runFrom cfg (e + 1) fuel st1 with
        | (evs2, out, st2) => (evs ++ evs2, out, st2)

/-- Model of `Trainer.train`: run epochs `0 … max_epochs - 1` from freshly
constructed (empty-history) `Accuracy` accumulators and the checkpoint
policy's initial state. -/
def train (cfg : TrainerCfg I T L P W) :
    List (Event L T) × RunOutcome × RunState L T P :=
  runFrom cfg 0 cfg.maxEpochs { trainAcc := [], valAcc := [], policy := cfg.policyInit }

/-- The checkpoint invocations among a list of events: for each, its epoch
and the metrics mapping passed to `step`. -/
def stepEvents : List (Event L T) → List (ℕ × List (String × ℚ))
  | [] => []
  | .checkpointStep e m :: rest => (e, m) :: stepEvents rest
  | .trainPhase _ _ :: rest => stepEvents rest
  | .valPhase _ _ :: rest => stepEvents rest

/-- The keys of the metrics mapping `Trainer.train` passes to the checkpoint
policy: the validation keys when a validation loader is configured, the
training keys otherwise. -/
def expectedKeys (cfg : TrainerCfg I T L P W) : List String :=
  match cfg.valData with
  | some _ => ["val_loss", "val_acc"]
  | none => ["train_loss", "train_acc"]

/-! ### Concrete instantiations used as test vehicles

All collaborators are instantiated over `ℕ` inputs/targets/logits, policy
state `ℕ` and unit weights: the model is the identity, the loss function
returns the constant per-example loss list `[1]`, and `Accuracy.compute`
counts the updates it has received. -/

/-- A batch of size 4 whose step took one second (the spec's scenario
batch). -/
def batch411 : Batch ℕ ℕ := { x := 0, target := 0, size := 4, elapsed := 1 }

/-- A batch of size 4 whose measured step duration is exactly zero. -/
def batchZ : Batch ℕ ℕ := { x := 0, target := 0, size := 4, elapsed := 0 }

/-- A batch of size 2 taking one second. -/
def batchB1 : Batch ℕ ℕ := { x := 1, target := 0, size := 2, elapsed := 1 }

/-- A batch of size 6 taking two seconds. -/
def batchB2 : Batch ℕ ℕ := { x := 2, target := 0, size := 6, elapsed := 2 }

/-- The spec's scenario batch list: 3 batches of size 4, constant loss, 1 s each. -/
def threeBatches : List (Batch ℕ ℕ) := [batch411, batch411, batch411]

/-- Base concrete trainer: empty loss kwargs, logging interval 1, two
epochs, no validation loader, no checkpoint policy. -/
def cfgA : TrainerCfg ℕ ℕ ℕ ℕ Unit where
  model := fun x => x
  loss_fn := fun _ _ _ => [1]
  loss_fn_args := some []
  accCompute := fun u => (u.length : ℚ)
  trainData := fun _ => threeBatches
  valData := none
  logEvery := 1
  maxEpochs := 2
  hasCheckpoint := false
  policyInit := 0
  policyStep := fun p _ _ _ => p + 1
  patienceOver := fun _ => false
  weights := ()

/-- Variant of `cfgA` with a logging interval of 2 batches. -/
def cfgA2 : TrainerCfg ℕ ℕ ℕ ℕ Unit := { cfgA with logEvery := 2 }

/-- Variant of `cfgA` with a checkpoint policy whose patience is immediately over:
the run early-stops at epoch 0 of 3. -/
def cfgES : TrainerCfg ℕ ℕ ℕ ℕ Unit :=
  { cfgA with
    trainData := fun _ => [batch411]
    maxEpochs := 3
    hasCheckpoint := true
    patienceOver := fun _ => true }

/-- Variant of `cfgA` over a one-batch loader with the default log fraction 0.1:
`log_every = int(0.1 * 1) = 0`. -/
def cfgC1 : TrainerCfg ℕ ℕ ℕ ℕ Unit :=
  { cfgA with
    trainData := fun _ => [batch411]
    logEvery := log_every_of (1 / 10) 1 }

/-- Variant of `cfgA` over the 3-batch scenario loader with the default log fraction
0.1: `log_every = int(0.1 * 3) = 0`. -/
def cfgC6 : TrainerCfg ℕ ℕ ℕ ℕ Unit :=
  { cfgA with logEvery := log_every_of (1 / 10) 3 }

/-- Variant of `cfgA` with `loss_fn_args` left at its default `None`. -/
def cfgNone : TrainerCfg ℕ ℕ ℕ ℕ Unit := { cfgA with loss_fn_args := none }

/-! ### Counting the logging trigger -/

/-- Among the batch indices `0, …, n-1`, exactly `⌈n / k⌉ = (n + k - 1) / k`
satisfy the trigger `idx % k == 0` (for `k ≠ 0`). -/
theorem countP_mod_range (k : ℕ) (hk : k ≠ 0) :
    ∀ n : ℕ, (List.range n).countP (fun i => decide (i % k = 0)) = (n + k - 1) / k := by
  have hkpos : 0 < k := Nat.pos_of_ne_zero hk
  intro n
  induction n with
  | zero =>
    have h1 : k - 1 < k := Nat.sub_lt hkpos Nat.one_pos
    simp [Nat.div_eq_of_lt h1]
  | succ n ih =>
    rw [List.range_succ, List.countP_append, ih]
    have hr : n % k < k := Nat.mod_lt n hkpos
    have hrq : n % k + k * (n / k) = n := Nat.mod_add_div n k
    have hdist : k * (n / k + 1) = k * (n / k) + k := by ring
    by_cases hm : n % k = 0
    · have e1 : n + k - 1 = k * (n / k) + (k - 1) := by omega
      have e2 : n + 1 + k - 1 = k * (n / k + 1) + 0 := by rw [hdist]; omega
      rw [e1, e2, Nat.mul_add_div hkpos, Nat.mul_add_div hkpos,
        Nat.div_eq_of_lt (show k - 1 < k by omega)]
      simp [hm]
    · have e1 : n + k - 1 = k * (n / k + 1) + (n % k - 1) := by rw [hdist]; omega
      have e2 : n + 1 + k - 1 = k * (n / k + 1) + n % k := by rw [hdist]; omega
      rw [e1, e2, Nat.mul_add_div hkpos, Nat.mul_add_div hkpos,
        Nat.div_eq_of_lt (show n % k - 1 < k by omega), Nat.div_eq_of_lt hr]
      simp [hm]

/-! ### Characterization of successful epochs -/

/-- A single training-loop iteration, when the loss kwargs are configured,
the logging interval is nonzero and the batch duration is nonzero: the loss,
throughput and accumulator entries are appended and the progress-line count
advances exactly when `idx % log_every == 0`. -/
theorem processTrainBatch_ok (cfg : TrainerCfg I T L P W) (args : List (String × ℚ))
    (ha : cfg.loss_fn_args = some args) (hk : cfg.logEvery ≠ 0) (idx : ℕ) (b : Batch I T)
    (hb : b.elapsed ≠ 0) (s : EpochAcc L T) :
    processTrainBatch cfg idx b s = Except.ok
      { losses := s.losses ++ [batchLoss cfg args b],
        thrpts := s.thrpts ++ [batchThr b],
        acc := s.acc ++ [(cfg.model b.x, b.target)],
        logCount := if idx % cfg.logEvery = 0 then s.logCount + 1 else s.logCount } := by
  unfold processTrainBatch train_step throughputOf
  rw [ha]
  simp [hb, hk, batchLoss, batchThr]

/-- Characterization of the whole training-batch loop on the success path. -/
theorem runTrainBatches_ok (cfg : TrainerCfg I T L P W) (args : List (String × ℚ))
    (ha : cfg.loss_fn_args = some args) (hk : cfg.logEvery ≠ 0) :
    ∀ (batches : List (Batch I T)) (idx : ℕ) (s : EpochAcc L T),
      (∀ b ∈ batches, b.elapsed ≠ 0) →
      runTrainBatches cfg idx batches s = Except.ok
        { losses := s.losses ++ batches.map (batchLoss cfg args),
          thrpts := s.thrpts ++ batches.map batchThr,
          acc := s.acc ++ updatesOf cfg batches,
          logCount := s.logCount +
            (List.range' idx batches.length).countP fun i => decide (i % cfg.logEvery = 0) } := by
  intro batches
  induction batches with
  | nil => intro idx s _; simp [runTrainBatches, updatesOf]
  | cons b rest ih =>
    intro idx s hel
    have hb : b.elapsed ≠ 0 := hel b (List.mem_cons_self b rest)
    have hrest : ∀ x ∈ rest, x.elapsed ≠ 0 := fun x hx => hel x (List.mem_cons_of_mem b hx)
    simp only [runTrainBatches, processTrainBatch_ok cfg args ha hk idx b hb s]
    rw [ih (idx + 1) _ hrest]
    simp only [Except.ok.injEq, EpochAcc.mk.injEq, updatesOf, List.map_cons]
    refine ⟨by simp, by simp, by simp [updatesOf], ?_⟩
    simp only [List.length_cons, List.range'_succ, List.countP_cons]
    by_cases hm : idx % cfg.logEvery = 0 <;> simp [hm] <;> omega

/-- Characterization of `train_epoch` on the success path: the mean of the per-batch losses, the
accumulator's `compute` over its incoming history extended by this epoch's
updates, the mean of the per-batch throughputs, a reset accumulator, and
`⌈N / log_every⌉` printed progress lines. -/
theorem train_epoch_ok (cfg : TrainerCfg I T L P W) (args : List (String × ℚ))
    (ha : cfg.loss_fn_args = some args) (hk : cfg.logEvery ≠ 0)
    (batches : List (Batch I T)) (acc0 : List (L × T))
    (he : ∀ b ∈ batches, b.elapsed ≠ 0) :
    train_epoch cfg batches acc0 = Except.ok
      { meanLoss := npMean (batches.map (batchLoss cfg args)),
        accVal := cfg.accCompute (acc0 ++ updatesOf cfg batches),
        meanThr := npMean (batches.map batchThr),
        accAfter := [],
        logCount := (batches.length + cfg.logEvery - 1) / cfg.logEvery } := by
  unfold train_epoch
  rw [runTrainBatches_ok cfg args ha hk batches 0 _ he]
  have hrange : List.range' 0 batches.length = List.range batches.length :=
    (List.range_eq_range' batches.length).symm
  simp [hrange, countP_mod_range cfg.logEvery hk]

/-- A single validation-loop iteration on the success path. -/
theorem processValBatch_ok (cfg : TrainerCfg I T L P W) (args : List (String × ℚ))
    (ha : cfg.loss_fn_args = some args) (b : Batch I T) (hb : b.elapsed ≠ 0)
    (s : EpochAcc L T) :
    processValBatch cfg b s = Except.ok
      { losses := s.losses ++ [batchLoss cfg args b],
        thrpts := s.thrpts ++ [batchThr b],
        acc := s.acc ++ [(cfg.model b.x, b.target)],
        logCount := s.logCount } := by
  unfold processValBatch val_step throughputOf
  rw [ha]
  simp [hb, batchLoss, batchThr]

/-- Characterization of the whole validation-batch loop on the success
path. -/
theorem runValBatches_ok (cfg : TrainerCfg I T L P W) (args : List (String × ℚ))
    (ha : cfg.loss_fn_args = some args) :
    ∀ (batches : List (Batch I T)) (s : EpochAcc L T),
      (∀ b ∈ batches, b.elapsed ≠ 0) →
      runValBatches cfg batches s = Except.ok
        { losses := s.losses ++ batches.map (batchLoss cfg args),
          thrpts := s.thrpts ++ batches.map batchThr,
          acc := s.acc ++ updatesOf cfg batches,
          logCount := s.logCount } := by
  intro batches
  induction batches with
  | nil => intro s _; simp [runValBatches, updatesOf]
  | cons b rest ih =>
    intro s hel
    have hb : b.elapsed ≠ 0 := hel b (List.mem_cons_self b rest)
    have hrest : ∀ x ∈ rest, x.elapsed ≠ 0 := fun x hx => hel x (List.mem_cons_of_mem b hx)
    simp only [runValBatches, processValBatch_ok cfg args ha b hb s]
    rw [ih _ hrest]
    simp [updatesOf]

/-- Characterization of `val_epoch` on the success path. -/
theorem val_epoch_ok (cfg : TrainerCfg I T L P W) (args : List (String × ℚ))
    (ha : cfg.loss_fn_args = some args) (batches : List (Batch I T)) (acc0 : List (L × T))
    (he : ∀ b ∈ batches, b.elapsed ≠ 0) :
    val_epoch cfg batches acc0 = Except.ok
      { meanLoss := npMean (batches.map (batchLoss cfg args)),
        accVal := cfg.accCompute (acc0 ++ updatesOf cfg batches),
        meanThr := npMean (batches.map batchThr),
        accAfter := [],
        logCount := 0 } := by
  unfold val_epoch
  rw [runValBatches_ok cfg args ha batches _ he]
  simp

/-! ### Facts that hold on every success path, without side conditions -/

/-- Whenever a training-loop iteration succeeds, it appended exactly one
`(raw predictions, targets)` entry to the accumulator history. -/
theorem processTrainBatch_acc (cfg : TrainerCfg I T L P W) (idx : ℕ) (b : Batch I T)
    (s s2 : EpochAcc L T) (h : processTrainBatch cfg idx b s = Except.ok s2) :
    s2.acc = s.acc ++ [(cfg.model b.x, b.target)] := by
  unfold processTrainBatch train_step throughputOf at h
  cases ha : cfg.loss_fn_args with
  | none => rw [ha] at h; simp at h
  | some args =>
    rw [ha] at h
    dsimp only at h
    by_cases hb : b.elapsed = 0
    · simp [hb] at h
    · rw [if_neg hb] at h
      dsimp only at h
      by_cases hk : cfg.logEvery = 0
      · simp [hk] at h
      · rw [if_neg hk] at h
        cases h
        rfl

/-- Whenever the training-batch loop succeeds, the final accumulator history
is the incoming one extended by this epoch's updates, in order. -/
theorem runTrainBatches_acc (cfg : TrainerCfg I T L P W) :
    ∀ (batches : List (Batch I T)) (idx : ℕ) (s s2 : EpochAcc L T),
      runTrainBatches cfg idx batches s = Except.ok s2 →
      s2.acc = s.acc ++ updatesOf cfg batches := by
  intro batches
  induction batches with
  | nil =>
    intro idx s s2 h
    simp only [runTrainBatches] at h
    cases h
    simp [updatesOf]
  | cons b rest ih =>
    intro idx s s2 h
    simp only [runTrainBatches] at h
    cases hp : processTrainBatch cfg idx b s with
    | error e => rw [hp] at h; simp at h
    | ok s1 =>
      rw [hp] at h
      dsimp only at h
      rw [ih (idx + 1) s1 s2 h, processTrainBatch_acc cfg idx b s s1 hp]
      simp [updatesOf]

/-- Whenever `train_epoch` succeeds, the accuracy it reports is `compute`
of the incoming history extended by exactly this epoch's updates, and the
accumulator is reset before returning. -/
theorem train_epoch_acc (cfg : TrainerCfg I T L P W) (batches : List (Batch I T))
    (acc0 : List (L × T)) (r : EpochResult L T)
    (h : train_epoch cfg batches acc0 = Except.ok r) :
    r.accVal = cfg.accCompute (acc0 ++ updatesOf cfg batches) ∧ r.accAfter = [] := by
  unfold train_epoch at h
  cases hr : runTrainBatches cfg 0 batches { losses := [], thrpts := [], acc := acc0, logCount := 0 } with
  | error e => rw [hr] at h; simp at h
  | ok s =>
    rw [hr] at h
    dsimp only at h
    cases h
    have hacc := runTrainBatches_acc cfg batches 0 _ s hr
    refine ⟨?_, rfl⟩
    show cfg.accCompute s.acc = cfg.accCompute (acc0 ++ updatesOf cfg batches)
    rw [hacc]

/-- Whenever a validation-loop iteration succeeds, it appended exactly one
`(raw predictions, targets)` entry to the accumulator history. -/
theorem processValBatch_acc (cfg : TrainerCfg I T L P W) (b : Batch I T)
    (s s2 : EpochAcc L T) (h : processValBatch cfg b s = Except.ok s2) :
    s2.acc = s.acc ++ [(cfg.model b.x, b.target)] := by
  unfold processValBatch val_step throughputOf at h
  cases ha : cfg.loss_fn_args with
  | none => rw [ha] at h; simp at h
  | some args =>
    rw [ha] at h
    dsimp only at h
    by_cases hb : b.elapsed = 0
    · simp [hb] at h
    · rw [if_neg hb] at h
      dsimp only at h
      cases h
      rfl

/-- Whenever the validation-batch loop succeeds, the final accumulator
history is the incoming one extended by this epoch's updates, in order. -/
theorem runValBatches_acc (cfg : TrainerCfg I T L P W) :
    ∀ (batches : List (Batch I T)) (s s2 : EpochAcc L T),
      runValBatches cfg batches s = Except.ok s2 →
      s2.acc = s.acc ++ updatesOf cfg batches := by
  intro batches
  induction batches with
  | nil =>
    intro s s2 h
    simp only [runValBatches] at h
    cases h
    simp [updatesOf]
  | cons b rest ih =>
    intro s s2 h
    simp only [runValBatches] at h
    cases hp : processValBatch cfg b s with
    | error e => rw [hp] at h; simp at h
    | ok s1 =>
      rw [hp] at h
      dsimp only at h
      rw [ih s1 s2 h, processValBatch_acc cfg b s s1 hp]
      simp [updatesOf]

/-- Whenever `val_epoch` succeeds, the accuracy it reports is `compute` of
the incoming history extended by exactly this epoch's updates, and the
accumulator is reset before returning. -/
theorem val_epoch_acc (cfg : TrainerCfg I T L P W) (batches : List (Batch I T))
    (acc0 : List (L × T)) (r : EpochResult L T)
    (h : val_epoch cfg batches acc0 = Except.ok r) :
    r.accVal = cfg.accCompute (acc0 ++ updatesOf cfg batches) ∧ r.accAfter = [] := by
  unfold val_epoch at h
  cases hr : runValBatches cfg batches { losses := [], thrpts := [], acc := acc0, logCount := 0 } with
  | error e => rw [hr] at h; simp at h
  | ok s =>
    rw [hr] at h
    dsimp only at h
    cases h
    have hacc := runValBatches_acc cfg batches _ s hr
    refine ⟨?_, rfl⟩
    show cfg.accCompute s.acc = cfg.accCompute (acc0 ++ updatesOf cfg batches)
    rw [hacc]

/-! ### Shape of a single epoch of the run controller -/

/-- Every event an epoch body emits belongs to that epoch. -/
theorem runEpoch_epochOf (cfg : TrainerCfg I T L P W) (e : ℕ) (st : RunState L T P) :
    ∀ ev ∈ (runEpoch cfg e st).1, ev.epochOf = e := by
  unfold runEpoch checkpointPhase
  cases htr : train_epoch cfg (cfg.trainData e) st.trainAcc with
  | error err =>
    dsimp only
    intro ev hev
    fin_cases hev
    rfl
  | ok tr =>
    dsimp only
    cases hvd : cfg.valData with
    | none =>
      dsimp only
      cases hcp : cfg.hasCheckpoint with
      | true =>
        dsimp only
        intro ev hev
        fin_cases hev <;> rfl
      | false =>
        dsimp only
        intro ev hev
        fin_cases hev <;> rfl
    | some vd =>
      dsimp only
      cases hve : val_epoch cfg (vd e) st.valAcc with
      | error err =>
        dsimp only
        intro ev hev
        fin_cases hev <;> rfl
      | ok vr =>
        dsimp only
        cases hcp : cfg.hasCheckpoint with
        | true =>
          dsimp only
          intro ev hev
          fin_cases hev <;> rfl
        | false =>
          dsimp only
          intro ev hev
          fin_cases hev <;> rfl

/-- A training-phase event records the training accumulator's history at
phase start, a validation-phase event the validation accumulator's. -/
theorem runEpoch_phase_acc (cfg : TrainerCfg I T L P W) (e : ℕ) (st : RunState L T P) :
    (∀ e1 a, Event.trainPhase e1 a ∈ (runEpoch cfg e st).1 → a = st.trainAcc) ∧
    (∀ e1 a, Event.valPhase e1 a ∈ (runEpoch cfg e st).1 → a = st.valAcc) := by
  unfold runEpoch checkpointPhase
  cases htr : train_epoch cfg (cfg.trainData e) st.trainAcc with
  | error err =>
    dsimp only
    constructor <;> intro e1 a hmem <;> simp at hmem <;> exact hmem.2
  | ok tr =>
    dsimp only
    cases hvd : cfg.valData with
    | none =>
      dsimp only
      cases hcp : cfg.hasCheckpoint with
      | true =>
        dsimp only
        constructor <;> intro e1 a hmem <;> simp at hmem <;> exact hmem.2
      | false =>
        dsimp only
        constructor <;> intro e1 a hmem <;> simp at hmem <;> exact hmem.2
    | some vd =>
      dsimp only
      cases hve : val_epoch cfg (vd e) st.valAcc with
      | error err =>
        dsimp only
        constructor <;> intro e1 a hmem <;> simp at hmem <;> exact hmem.2
      | ok vr =>
        dsimp only
        cases hcp : cfg.hasCheckpoint with
        | true =>
          dsimp only
          constructor <;> intro e1 a hmem <;> simp at hmem <;> exact hmem.2
        | false =>
          dsimp only
          constructor <;> intro e1 a hmem <;> simp at hmem <;> exact hmem.2

/-- When an epoch body returns normally, the training accumulator has been
reset, and the validation accumulator has either been reset (validation
configured) or left untouched (no validation loader). -/
theorem runEpoch_ok_state (cfg : TrainerCfg I T L P W) (e : ℕ) (st st1 : RunState L T P)
    (stop : Bool) (h : (runEpoch cfg e st).2 = Except.ok (st1, stop)) :
    st1.trainAcc = [] ∧ (st1.valAcc = [] ∨ st1.valAcc = st.valAcc) := by
  unfold runEpoch checkpointPhase at h
  split at h
  next err htr => simp at h
  next tr htr =>
    split at h
    next vd hvd =>
      split at h
      next err hve => simp at h
      next vr hve =>
        split at h
        next cevs st3 stopv htuple =>
          simp only [Except.ok.injEq, Prod.mk.injEq] at h
          obtain ⟨h1, _⟩ := h
          subst h1
          split at htuple <;>
            (simp only [Prod.mk.injEq] at htuple
             obtain ⟨_, h3, _⟩ := htuple
             subst h3
             exact ⟨(train_epoch_acc cfg _ _ tr htr).2,
               Or.inl (val_epoch_acc cfg _ _ vr hve).2⟩)
    next hvd =>
      split at h
      next cevs st2 stopv htuple =>
        simp only [Except.ok.injEq, Prod.mk.injEq] at h
        obtain ⟨h1, _⟩ := h
        subst h1
        split at htuple <;>
          (simp only [Prod.mk.injEq] at htuple
           obtain ⟨_, h3, _⟩ := htuple
           subst h3
           exact ⟨(train_epoch_acc cfg _ _ tr htr).2, Or.inr rfl⟩)

/-- When an epoch body reports a true early-stop flag, its last event is the
checkpoint invocation of that same epoch: nothing of the epoch runs after
the flag is read. -/
theorem runEpoch_stop_last (cfg : TrainerCfg I T L P W) (e : ℕ) (st st1 : RunState L T P)
    (h : (runEpoch cfg e st).2 = Except.ok (st1, true)) :
    ∃ m, (runEpoch cfg e st).1.getLast? = some (Event.checkpointStep e m) := by
  unfold runEpoch checkpointPhase at h ⊢
  cases htr : train_epoch cfg (cfg.trainData e) st.trainAcc with
  | error err => rw [htr] at h; simp at h
  | ok tr =>
    rw [htr] at h
    dsimp only at h
    dsimp only
    cases hvd : cfg.valData with
    | none =>
      rw [hvd] at h
      dsimp only at h
      dsimp only
      cases hcp : cfg.hasCheckpoint with
      | true => exact ⟨_, rfl⟩
      | false => rw [hcp] at h; simp at h
    | some vd =>
      rw [hvd] at h
      dsimp only at h
      dsimp only
      cases hve : val_epoch cfg (vd e) st.valAcc with
      | error err => rw [hve] at h; simp at h
      | ok vr =>
        rw [hve] at h
        dsimp only at h
        dsimp only
        cases hcp : cfg.hasCheckpoint with
        | true => exact ⟨_, rfl⟩
        | false => rw [hcp] at h; simp at h

/-- The projection `stepEvents` distributes over concatenation of event lists. -/
theorem stepEvents_append : ∀ l1 l2 : List (Event L T),
    stepEvents (l1 ++ l2) = stepEvents l1 ++ stepEvents l2 := by
  intro l1 l2
  induction l1 with
  | nil => simp [stepEvents]
  | cons ev rest ih => cases ev <;> simp [stepEvents, ih]

/-- Every checkpoint invocation an epoch body emits carries that epoch's
index and a metrics mapping whose keys are exactly the validation keys when
a validation loader is configured, the training keys otherwise. -/
theorem runEpoch_stepEvents_mem (cfg : TrainerCfg I T L P W) (e : ℕ) (st : RunState L T P) :
    ∀ p ∈ stepEvents (runEpoch cfg e st).1,
      p.1 = e ∧ p.2.map Prod.fst = expectedKeys cfg := by
  unfold runEpoch checkpointPhase expectedKeys
  cases htr : train_epoch cfg (cfg.trainData e) st.trainAcc with
  | error err =>
    intro p hp
    simp [stepEvents] at hp
  | ok tr =>
    dsimp only
    cases hvd : cfg.valData with
    | none =>
      dsimp only
      cases hcp : cfg.hasCheckpoint with
      | true =>
        intro p hp
        simp [stepEvents] at hp
        subst hp
        simp
      | false =>
        intro p hp
        simp [stepEvents] at hp
    | some vd =>
      dsimp only
      cases hve : val_epoch cfg (vd e) st.valAcc with
      | error err =>
        intro p hp
        simp [stepEvents] at hp
      | ok vr =>
        dsimp only
        cases hcp : cfg.hasCheckpoint with
        | true =>
          intro p hp
          simp [stepEvents] at hp
          subst hp
          simp
        | false =>
          intro p hp
          simp [stepEvents] at hp

/-- When a checkpoint policy is configured and the epoch body returns
normally, `step` was invoked exactly once, at this epoch. -/
theorem runEpoch_stepEvents_ok (cfg : TrainerCfg I T L P W) (e : ℕ) (st st1 : RunState L T P)
    (stop : Bool) (hcp : cfg.hasCheckpoint = true)
    (h : (runEpoch cfg e st).2 = Except.ok (st1, stop)) :
    (stepEvents (runEpoch cfg e st).1).map Prod.fst = [e] := by
  unfold runEpoch checkpointPhase at h ⊢
  rw [hcp] at h ⊢
  cases htr : train_epoch cfg (cfg.trainData e) st.trainAcc with
  | error err => rw [htr] at h; simp at h
  | ok tr =>
    rw [htr] at h
    dsimp only at h
    cases hvd : cfg.valData with
    | none => simp [stepEvents]
    | some vd =>
      rw [hvd] at h
      dsimp only at h
      cases hve : val_epoch cfg (vd e) st.valAcc with
      | error err => rw [hve] at h; simp at h
      | ok vr => simp [stepEvents, hve]

/-! ### Invariants of the epoch loop -/

/-- Every checkpoint invocation of a whole run carries a metrics mapping
with exactly the expected keys. -/
theorem runFrom_stepEvents_mem (cfg : TrainerCfg I T L P W) :
    ∀ (fuel e : ℕ) (st : RunState L T P),
      ∀ p ∈ stepEvents (runFrom cfg e fuel st).1, p.2.map Prod.fst = expectedKeys cfg := by
  intro fuel
  induction fuel with
  | zero => intro e st p hp; simp [runFrom, stepEvents] at hp
  | succ n ih =>
    intro e st p hp
    have hepoch := runEpoch_stepEvents_mem cfg e st
    rcases hre : runEpoch cfg e st with ⟨evs, res⟩
    rw [hre] at hepoch
    cases res with
    | error err =>
      simp only [runFrom, hre] at hp
      exact (hepoch p hp).2
    | ok pr =>
      rcases pr with ⟨st1, stop⟩
      cases stop with
      | true =>
        simp only [runFrom, hre] at hp
        exact (hepoch p hp).2
      | false =>
        rcases hrec : runFrom cfg (e + 1) n st1 with ⟨evs2, out2, st2⟩
        simp only [runFrom, hre, hrec] at hp
        rw [stepEvents_append] at hp
        rcases List.mem_append.mp hp with hl | hr
        · exact (hepoch p hl).2
        · have hih := ih (e + 1) st1 p
          simp only [hrec] at hih
          exact hih hr

/-- When a run ends in `processExit k` (the `quit()` of early stopping), the
stop happened at an epoch `k` in range, every emitted event belongs to an
epoch `≤ k`, and the very last event of the run is the checkpoint
invocation of epoch `k`. -/
theorem runFrom_processExit (cfg : TrainerCfg I T L P W) :
    ∀ (fuel e : ℕ) (st : RunState L T P) (k : ℕ),
      (runFrom cfg e fuel st).2.1 = RunOutcome.processExit k →
      e ≤ k ∧ (∀ ev ∈ (runFrom cfg e fuel st).1, ev.epochOf ≤ k) ∧
      (∃ m, (runFrom cfg e fuel st).1.getLast? = some (Event.checkpointStep k m)) := by
  intro fuel
  induction fuel with
  | zero => intro e st k h; simp [runFrom] at h
  | succ n ih =>
    intro e st k h
    have hepoch := runEpoch_epochOf cfg e st
    rcases hre : runEpoch cfg e st with ⟨evs, res⟩
    rw [hre] at hepoch
    cases res with
    | error err =>
      simp only [runFrom, hre] at h
      exact (RunOutcome.noConfusion h)
    | ok pr =>
      rcases pr with ⟨st1, stop⟩
      cases stop with
      | true =>
        simp only [runFrom, hre] at h ⊢
        simp only [RunOutcome.processExit.injEq] at h
        subst h
        refine ⟨le_refl e, fun ev hev => le_of_eq (hepoch ev hev), ?_⟩
        have hlast := runEpoch_stop_last cfg e st st1
        rw [hre] at hlast
        exact hlast rfl
      | false =>
        rcases hrec : runFrom cfg (e + 1) n st1 with ⟨evs2, out2, st2⟩
        simp only [runFrom, hre, hrec] at h ⊢
        have hih := ih (e + 1) st1 k
        simp only [hrec] at hih
        obtain ⟨hk, hall, m, hlast⟩ := hih h
        have hne : evs2 ≠ [] := by
          intro hnil
          rw [hnil] at hlast
          simp at hlast
        refine ⟨by omega, fun ev hev => ?_, ⟨m, ?_⟩⟩
        · rcases List.mem_append.mp hev with hl | hr
          · have := hepoch ev hl
            omega
          · exact hall ev hr
        · rw [List.getLast?_append_of_ne_nil evs hne]
          exact hlast

/-- Starting from reset accumulators, every phase of every epoch of the run
starts with a reset accumulator. -/
theorem runFrom_phase_reset (cfg : TrainerCfg I T L P W) :
    ∀ (fuel e : ℕ) (st : RunState L T P), st.trainAcc = [] → st.valAcc = [] →
      (∀ e1 a, Event.trainPhase e1 a ∈ (runFrom cfg e fuel st).1 → a = []) ∧
      (∀ e1 a, Event.valPhase e1 a ∈ (runFrom cfg e fuel st).1 → a = []) := by
  intro fuel
  induction fuel with
  | zero => intro e st h1 h2; simp [runFrom]
  | succ n ih =>
    intro e st h1 h2
    have hacc := runEpoch_phase_acc cfg e st
    rcases hre : runEpoch cfg e st with ⟨evs, res⟩
    rw [hre] at hacc
    cases res with
    | error err =>
      simp only [runFrom, hre]
      exact ⟨fun e1 a hm => (hacc.1 e1 a hm).trans h1,
             fun e1 a hm => (hacc.2 e1 a hm).trans h2⟩
    | ok pr =>
      rcases pr with ⟨st1, stop⟩
      have hst1 := runEpoch_ok_state cfg e st st1 stop (by rw [hre])
      have hv1 : st1.valAcc = [] := by
        rcases hst1.2 with hv | hv
        · exact hv
        · rw [hv, h2]
      cases stop with
      | true =>
        simp only [runFrom, hre]
        exact ⟨fun e1 a hm => (hacc.1 e1 a hm).trans h1,
               fun e1 a hm => (hacc.2 e1 a hm).trans h2⟩
      | false =>
        rcases hrec : runFrom cfg (e + 1) n st1 with ⟨evs2, out2, st2⟩
        simp only [runFrom, hre, hrec]
        have hih := ih (e + 1) st1 hst1.1 hv1
        simp only [hrec] at hih
        constructor
        · intro e1 a hm
          rcases List.mem_append.mp hm with hl | hr
          · exact (hacc.1 e1 a hl).trans h1
          · exact hih.1 e1 a hr
        · intro e1 a hm
          rcases List.mem_append.mp hm with hl | hr
          · exact (hacc.2 e1 a hl).trans h2
          · exact hih.2 e1 a hr

/-- When `log_every` is zero and the first batch survives the loss and
throughput computations, `train_epoch` raises `ZeroDivisionError` at the
first `batch_idx % self.log_every` evaluation instead of logging. -/
theorem train_epoch_logZero (cfg : TrainerCfg I T L P W) (args : List (String × ℚ))
    (ha : cfg.loss_fn_args = some args) (hk : cfg.logEvery = 0)
    (b : Batch I T) (rest : List (Batch I T)) (acc0 : List (L × T)) (hb : b.elapsed ≠ 0) :
    train_epoch cfg (b :: rest) acc0 = Except.error PyError.zeroDivisionError := by
  unfold train_epoch runTrainBatches processTrainBatch train_step throughputOf
  rw [ha, hk]
  simp [hb]

/-! ### The claims -/

/-- C1, counterexample: for a single-batch epoch with the default log
fraction `0.1`, `log_every = int(0.1 * 1) = 0`, and the training phase
raises `ZeroDivisionError` at the first batch's `batch_idx % self.log_every`
check instead of emitting `ceil(1 / max(1, 0)) = 1` progress line: the
logging interval is not clamped to a minimum of 1. -/
theorem c1_counterexample :
    log_every_of (1 / 10) 1 = 0 ∧
    train_epoch cfgC1 (cfgC1.trainData 0) [] = Except.error PyError.zeroDivisionError := by
  have h0 : log_every_of (1 / 10) 1 = 0 := by norm_num [log_every_of]
  refine ⟨h0, ?_⟩
  exact train_epoch_logZero cfgC1 [] rfl h0 batch411 [] [] (by norm_num [batch411])

/-- C1, amended: when `log_every = floor(f × N)` is at least 1 (and the
epoch completes: loss kwargs supplied, no zero-duration batch), the training
phase emits exactly `ceil(N / log_every) = (N + log_every - 1) / log_every`
progress lines; when `floor(f × N) = 0` the phase instead raises
`ZeroDivisionError` (see the counterexample). -/
theorem c1_log_line_count (cfg : TrainerCfg I T L P W) (args : List (String × ℚ))
    (ha : cfg.loss_fn_args = some args) (hk : cfg.logEvery ≠ 0)
    (batches : List (Batch I T)) (acc0 : List (L × T))
    (he : ∀ b ∈ batches, b.elapsed ≠ 0) :
    (train_epoch cfg batches acc0).map resultLogCount =
      Except.ok ((batches.length + cfg.logEvery - 1) / cfg.logEvery) := by
  rw [train_epoch_ok cfg args ha hk batches acc0 he]
  rfl

/-- C1 witness: 3 batches with a logging interval of 2 emit
`ceil(3 / 2) = 2` progress lines. -/
theorem c1_log_line_count_witness :
    (train_epoch cfgA2 threeBatches []).map resultLogCount = Except.ok 2 := by
  have h := c1_log_line_count cfgA2 [] rfl (by norm_num [cfgA2, cfgA]) threeBatches []
    (by intro b hb; fin_cases hb <;> norm_num [threeBatches, batch411])
  rw [h]
  norm_num [threeBatches, cfgA2, cfgA]

/-- C2: the throughput computation `x.shape[0] / (toc - tic)` is not
guarded.  An empty batch with a positive duration yields the finite sentinel
`0.0`, but a zero-duration step raises an unguarded `ZeroDivisionError`
that aborts the whole epoch — there is no DivisionDegeneracy-class error and
no sentinel on that path, contradicting the claim (the spec's §7 prescribes
a guard; the code has none). -/
theorem c2_throughput_unguarded :
    throughputOf 0 1 = Except.ok 0 ∧
    throughputOf 4 0 = Except.error PyError.zeroDivisionError ∧
    train_epoch cfgA [batchZ] [] = Except.error PyError.zeroDivisionError := by
  refine ⟨?_, rfl, rfl⟩
  norm_num [throughputOf]

/-- C6, counterexample: the spec's own scenario (3 batches) run with the
default log fraction `0.1` has `log_every = int(0.1 * 3) = 0`, and
`train_epoch` raises `ZeroDivisionError` instead of returning the triple:
the claim's universal statement fails for configurations whose computed
logging interval is zero. -/
theorem c6_counterexample :
    log_every_of (1 / 10) 3 = 0 ∧
    cfgC6.logEvery = log_every_of (1 / 10) 3 ∧
    train_epoch cfgC6 threeBatches [] = Except.error PyError.zeroDivisionError := by
  have h0 : log_every_of (1 / 10) 3 = 0 := by norm_num [log_every_of]
  refine ⟨h0, rfl, ?_⟩
  exact train_epoch_logZero cfgC6 [] rfl h0 batch411 [batch411, batch411] []
    (by norm_num [batch411])

/-- C6, amended: provided the computed logging interval is at least 1 (and
the loss kwargs are supplied and no batch has a zero measured duration),
`train_epoch` over a non-empty loader returns exactly (mean of the
per-batch losses, `compute()` of the training accumulator, mean of the
per-batch throughputs) and resets the accumulator before returning. -/
theorem c6_train_epoch_result (cfg : TrainerCfg I T L P W) (args : List (String × ℚ))
    (ha : cfg.loss_fn_args = some args) (hk : cfg.logEvery ≠ 0)
    (batches : List (Batch I T)) (acc0 : List (L × T)) (hne : batches ≠ [])
    (he : ∀ b ∈ batches, b.elapsed ≠ 0) :
    train_epoch cfg batches acc0 = Except.ok
      { meanLoss := npMean (batches.map (batchLoss cfg args)),
        accVal := cfg.accCompute (acc0 ++ updatesOf cfg batches),
        meanThr := npMean (batches.map batchThr),
        accAfter := [],
        logCount := (batches.length + cfg.logEvery - 1) / cfg.logEvery } :=
  train_epoch_ok cfg args ha hk batches acc0 he

/-- C6 witness, the spec's scenario with a workable logging interval of 1:
3 batches of size 4, per-batch loss 1, 1 s each give mean loss 1, accuracy
`compute()` = 3 updates, mean throughput 4 images/s, and a reset
accumulator. -/
theorem c6_train_epoch_result_witness :
    train_epoch cfgA threeBatches [] = Except.ok
      { meanLoss := 1, accVal := 3, meanThr := 4, accAfter := [], logCount := 3 } := by
  have h := c6_train_epoch_result cfgA [] rfl (by norm_num [cfgA]) threeBatches []
    (List.cons_ne_nil batch411 [batch411, batch411])
    (by intro b hb; fin_cases hb <;> norm_num [threeBatches, batch411])
  rw [h]
  norm_num [npMean, batchLoss, batchThr, updatesOf, threeBatches, batch411, cfgA]

/-- C8: the training step returns the scalar `mx.mean` of the per-example
losses that `loss_fn` produces on the model's raw forward-pass predictions
with the configured extra parameters, and its only metric side effect is
exactly one `update(logits, target)` on the training accumulator, with the
raw (not post-processed) predictions. -/
theorem c8_train_step_contract (cfg : TrainerCfg I T L P W) (args : List (String × ℚ))
    (ha : cfg.loss_fn_args = some args) (acc : List (L × T)) (x : I) (t : T) :
    train_step cfg acc x t =
      Except.ok (npMean (cfg.loss_fn (cfg.model x) t args), acc ++ [(cfg.model x, t)]) := by
  unfold train_step
  rw [ha]

/-- C8 witness: on the concrete trainer the step returns loss 1 and appends
exactly the pair (raw prediction 5, target 7). -/
theorem c8_train_step_contract_witness :
    train_step cfgA [] 5 7 = Except.ok (1, [(5, 7)]) := by
  rw [c8_train_step_contract cfgA [] rfl [] 5 7]
  norm_num [cfgA, npMean]

/-- C10: a trainer whose `loss_fn_args` was left at its default `None` has
every training and validation step fail with `TypeError` when `**None` is
unpacked into the loss call — before any loss value is produced, so a whole
epoch fails too — while supplying an empty mapping `{}` makes the very same
steps succeed. -/
theorem c10_none_args_type_error (cfg cfg2 : TrainerCfg I T L P W)
    (hnone : cfg.loss_fn_args = none) (hempty : cfg2.loss_fn_args = some [])
    (acc acc2 : List (L × T)) (x : I) (t : T) (b : Batch I T) (rest : List (Batch I T)) :
    train_step cfg acc x t = Except.error PyError.typeError ∧
    val_step cfg acc x t = Except.error PyError.typeError ∧
    train_epoch cfg (b :: rest) acc = Except.error PyError.typeError ∧
    train_step cfg2 acc2 x t =
      Except.ok (npMean (cfg2.loss_fn (cfg2.model x) t []), acc2 ++ [(cfg2.model x, t)]) ∧
    val_step cfg2 acc2 x t =
      Except.ok (npMean (cfg2.loss_fn (cfg2.model x) t []), acc2 ++ [(cfg2.model x, t)]) := by
  refine ⟨?_, ?_, ?_, ?_, ?_⟩
  · unfold train_step; rw [hnone]
  · unfold val_step; rw [hnone]
  · unfold train_epoch runTrainBatches processTrainBatch train_step
    rw [hnone]
  · unfold train_step; rw [hempty]
  · unfold val_step; rw [hempty]

/-- C10 witness: the concrete trainer with `loss_fn_args = None` fails with
`TypeError` on both steps and on a whole epoch; the same trainer with an
empty kwargs mapping succeeds. -/
theorem c10_none_args_type_error_witness :
    train_step cfgNone [] 0 0 = Except.error PyError.typeError ∧
    val_step cfgNone [] 0 0 = Except.error PyError.typeError ∧
    train_epoch cfgNone threeBatches [] = Except.error PyError.typeError ∧
    train_step cfgA [] 0 0 =
      Except.ok (npMean (cfgA.loss_fn (cfgA.model 0) 0 []), [] ++ [(cfgA.model 0, 0)]) ∧
    val_step cfgA [] 0 0 =
      Except.ok (npMean (cfgA.loss_fn (cfgA.model 0) 0 []), [] ++ [(cfgA.model 0, 0)]) :=
  c10_none_args_type_error cfgNone cfgA rfl rfl [] [] 0 0 batch411 [batch411, batch411]

/-- C3: with a checkpoint policy configured, every epoch body that returns
normally invokes `step` exactly once, at that epoch; every `step`
invocation anywhere in a run receives a metrics mapping whose keys are
exactly `val_loss, val_acc` when a validation loader is configured and
exactly `train_loss, train_acc` otherwise — never both sets, never
neither. -/
theorem c3_checkpoint_metrics (cfg : TrainerCfg I T L P W) (hcp : cfg.hasCheckpoint = true) :
    (∀ (e : ℕ) (st st1 : RunState L T P) (stop : Bool),
       (runEpoch cfg e st).2 = Except.ok (st1, stop) →
       (stepEvents (runEpoch cfg e st).1).map Prod.fst = [e]) ∧
    (∀ (e : ℕ) (st : RunState L T P), ∀ p ∈ stepEvents (runEpoch cfg e st).1,
       p.1 = e ∧ p.2.map Prod.fst = expectedKeys cfg) ∧
    (∀ p ∈ stepEvents (train cfg).1, p.2.map Prod.fst = expectedKeys cfg) :=
  ⟨fun e st st1 stop h => runEpoch_stepEvents_ok cfg e st st1 stop hcp h,
   fun e st => runEpoch_stepEvents_mem cfg e st,
   fun p hp => runFrom_stepEvents_mem cfg cfg.maxEpochs 0 _ p hp⟩

/-- C3 witness: in the concrete run with a checkpoint policy and no
validation loader, epoch 0 invokes `step` exactly once, at epoch 0. -/
theorem c3_checkpoint_metrics_witness :
    (stepEvents (runEpoch cfgES 0 { trainAcc := [], valAcc := [], policy := 0 }).1).map
      Prod.fst = [0] :=
  (c3_checkpoint_metrics cfgES rfl).1 0 { trainAcc := [], valAcc := [], policy := 0 }
    { trainAcc := [], valAcc := [], policy := 1 } true rfl

/-- C4: once a run ends in the early-stop `quit()` at epoch `k`, every event
of the whole run belongs to an epoch `≤ k`, and the final event of the run
is precisely the checkpoint invocation of epoch `k`: no training phase, no
validation phase and no checkpoint invocation executes after the
patience-exceeded flag reads true. -/
theorem c4_early_stop_halts (cfg : TrainerCfg I T L P W) (k : ℕ)
    (h : (train cfg).2.1 = RunOutcome.processExit k) :
    (∀ ev ∈ (train cfg).1, ev.epochOf ≤ k) ∧
    (∃ m, (train cfg).1.getLast? = some (Event.checkpointStep k m)) := by
  have hrun := runFrom_processExit cfg cfg.maxEpochs 0
    { trainAcc := [], valAcc := [], policy := cfg.policyInit } k h
  exact ⟨hrun.2.1, hrun.2.2⟩

/-- C4 witness: the concrete run whose policy's patience is immediately
over stops at epoch 0; in particular its training phase belongs to epoch
0. -/
theorem c4_early_stop_halts_witness :
    Event.epochOf (Event.trainPhase 0 ([] : List (ℕ × ℕ))) ≤ 0 :=
  (c4_early_stop_halts cfgES 0 rfl).1 (Event.trainPhase 0 [])
    (List.mem_cons_self _ _)

/-- C5, counterexample: an early-stopping run ends in `quit()` — the
process terminates and nothing at all is delivered to the caller of
`train()` (`callerOutcome = none`) — while a run completing its schedule
returns the bare `None`.  The early-stopped run therefore does not yield
any outcome value to the caller, refuting the claim that `train()` delivers
distinguishable outcome values for the two terminations. -/
theorem c5_counterexample :
    (train cfgES).2.1 = RunOutcome.processExit 0 ∧
    callerOutcome (train cfgES).2.1 = none ∧
    (train cfgA).2.1 = RunOutcome.completed ∧
    callerOutcome (train cfgA).2.1 = some none :=
  ⟨rfl, rfl, rfl, rfl⟩

/-- C5, amended: on early stop `train()` terminates the whole process via
`quit()` and delivers no outcome value to its caller, while a run that
completes the schedule returns the informationless `None`; callers cannot
branch on a returned outcome value. -/
theorem c5_early_stop_no_return (cfg cfg2 : TrainerCfg I T L P W) (k : ℕ)
    (h : (train cfg).2.1 = RunOutcome.processExit k)
    (h2 : (train cfg2).2.1 = RunOutcome.completed) :
    callerOutcome (train cfg).2.1 = none ∧
    callerOutcome (train cfg2).2.1 = some none := by
  rw [h, h2]
  exact ⟨rfl, rfl⟩

/-- C5 witness: the two concrete runs instantiating the amended claim. -/
theorem c5_early_stop_no_return_witness :
    callerOutcome (train cfgES).2.1 = none ∧
    callerOutcome (train cfgA).2.1 = some none :=
  c5_early_stop_no_return cfgES cfgA 0 rfl rfl

/-- C7: in every run, each training phase starts with the training
accumulator in its reset state and each validation phase with the
validation accumulator in its reset state; moreover each epoch's reported
accuracy is `compute` of the phase's own updates appended to the incoming
(reset) history, and the accumulator is reset again before the phase
returns — so updates of epoch `k` never influence the value read in epoch
`k + 1`, and the two accumulators never exchange state. -/
theorem c7_accumulator_reset (cfg : TrainerCfg I T L P W) :
    (∀ e a, Event.trainPhase e a ∈ (train cfg).1 → a = []) ∧
    (∀ e a, Event.valPhase e a ∈ (train cfg).1 → a = []) ∧
    (∀ (batches : List (Batch I T)) (acc0 : List (L × T)) (r : EpochResult L T),
      train_epoch cfg batches acc0 = Except.ok r →
      r.accVal = cfg.accCompute (acc0 ++ updatesOf cfg batches) ∧ r.accAfter = []) ∧
    (∀ (batches : List (Batch I T)) (acc0 : List (L × T)) (r : EpochResult L T),
      val_epoch cfg batches acc0 = Except.ok r →
      r.accVal = cfg.accCompute (acc0 ++ updatesOf cfg batches) ∧ r.accAfter = []) := by
  have h := runFrom_phase_reset cfg cfg.maxEpochs 0
    { trainAcc := [], valAcc := [], policy := cfg.policyInit } rfl rfl
  exact ⟨h.1, h.2,
    fun batches acc0 r hr => train_epoch_acc cfg batches acc0 r hr,
    fun batches acc0 r hr => val_epoch_acc cfg batches acc0 r hr⟩

/-- C7 witness: on the concrete scenario epoch, the reported accuracy is
`compute` of exactly this epoch's 3 updates and the accumulator history
after the epoch is empty. -/
theorem c7_accumulator_reset_witness :
    (3 : ℚ) = cfgA.accCompute ([] ++ updatesOf cfgA threeBatches) ∧
    ([] : List (ℕ × ℕ)) = [] := by
  have h := (c7_accumulator_reset cfgA).2.2.1 threeBatches []
    { meanLoss := 1, accVal := 3, meanThr := 4, accAfter := [], logCount := 3 }
    (by rw [train_epoch_ok cfgA [] rfl (by norm_num [cfgA]) threeBatches []
          (by intro b hb; fin_cases hb <;> norm_num [threeBatches, batch411])]
        norm_num [npMean, batchLoss, batchThr, updatesOf, threeBatches, batch411, cfgA])
  exact ⟨h.1, h.2⟩

/-- C9: the mean loss and mean throughput an epoch returns are plain
arithmetic means of the per-batch values, invariant under permuting the
batch order — for both the training and the validation phase. -/
theorem c9_mean_perm_invariant (cfg : TrainerCfg I T L P W) (args : List (String × ℚ))
    (ha : cfg.loss_fn_args = some args) (hk : cfg.logEvery ≠ 0)
    (batches batches2 : List (Batch I T)) (hperm : batches.Perm batches2)
    (he : ∀ b ∈ batches, b.elapsed ≠ 0)
    (acc0 acc02 vacc0 vacc02 : List (L × T)) :
    (train_epoch cfg batches acc0).map meanPair =
      (train_epoch cfg batches2 acc02).map meanPair ∧
    (val_epoch cfg batches vacc0).map meanPair =
      (val_epoch cfg batches2 vacc02).map meanPair := by
  have he2 : ∀ b ∈ batches2, b.elapsed ≠ 0 := fun b hb => he b (hperm.mem_iff.mpr hb)
  have hml : npMean (batches.map (batchLoss cfg args)) =
      npMean (batches2.map (batchLoss cfg args)) := by
    have hp := hperm.map (batchLoss cfg args)
    simp only [npMean]
    rw [hp.sum_eq, hp.length_eq]
  have hmt : npMean (batches.map batchThr) = npMean (batches2.map batchThr) := by
    have hp := hperm.map batchThr
    simp only [npMean]
    rw [hp.sum_eq, hp.length_eq]
  rw [train_epoch_ok cfg args ha hk batches acc0 he,
      train_epoch_ok cfg args ha hk batches2 acc02 he2,
      val_epoch_ok cfg args ha batches vacc0 he,
      val_epoch_ok cfg args ha batches2 vacc02 he2]
  constructor <;> simp [Except.map, meanPair, hml, hmt]

/-- C9 witness: swapping two concrete batches of different sizes and
durations leaves both phases' (mean loss, mean throughput) unchanged. -/
theorem c9_mean_perm_invariant_witness :
    (train_epoch cfgA [batchB1, batchB2] []).map meanPair =
      (train_epoch cfgA [batchB2, batchB1] []).map meanPair ∧
    (val_epoch cfgA [batchB1, batchB2] []).map meanPair =
      (val_epoch cfgA [batchB2, batchB1] []).map meanPair :=
  c9_mean_perm_invariant cfgA [] rfl (by norm_num [cfgA]) _ _
    (List.Perm.swap batchB2 batchB1 [])
    (by intro b hb; fin_cases hb <;> norm_num [batchB1, batchB2]) [] [] [] []

end MlxTrainer
